import Mathlib

/-!
Verification development for the HNG notifications template service
(`template_app`): a shallow embedding of the versioned-template store and
its view operations (`models.py`, `serializers.py`, `views.py`), together
with theorems settling the behavioural claims about version assignment,
the single-active invariant, rendering and error handling.
-/

namespace TemplateApp

/-!
## Data model (src/template_app/models.py)

A `Template` row.  The UUID primary key is modelled as a `Nat` (only
identity/uniqueness matters); `created_at` / `updated_at` timestamps are
omitted because no claim refers to them.  `subject` is nullable
(`blank=True, null=True`), hence `Option String`.
-/

structure Template where
  id : Nat
  code : String
  name : String
  language : String
  subject : Option String
  content : String
  version : Nat
  is_active : Bool
deriving Repr, DecidableEq

/-- The template table.  `unique_together (code, language, version)` is a
store-level constraint, enforced where the ORM would raise on a violating
write. -/
abbrev Store := List Template

/-!
## Placeholder engine (models the external dependency `django.template`)

`DjangoTemplate(text)` lexes `{{ var }}` and `{% tag %}` tokens and parses
block tags; `render(Context(vars))` substitutes variables, rendering a
missing variable as the engine default `string_if_invalid = ""`.  The model
covers variable tokens and block-tag matching; comment tags and the runtime
execution of block tags (loops, conditionals) are outside the modelled
fragment, so general render theorems are stated for block-free text.
-/

/-- One lexed chunk of template text: literal text, a `{{ name }}` variable
tag (name already trimmed), or a `{% tag ... %}` block tag (first word). -/
inductive Token where
  | text (s : List Char)
  | varTok (name : String)
  | blockTok (tag : String)
deriving Repr, DecidableEq

/-- Split a character list at the first occurrence of the tag terminator
`f` followed by a closing brace (the engine closes `{{ }}` at the first
two-character terminator, non-greedily).  Returns the characters strictly
before the terminator and those strictly after it. -/
def splitAtClose (f : Char) : List Char → Option (List Char × List Char)
  | [] => none
  | [_] => none
  | c1 :: c2 :: rest =>
    if c1 = f ∧ c2 = '}' then some ([], rest)
    else (splitAtClose f (c2 :: rest)).map (fun p => (c1 :: p.1, p.2))

theorem splitAtClose_length (f : Char) :
    ∀ cs a b, splitAtClose f cs = some (a, b) → b.length + 2 ≤ cs.length := by
  intro cs
  induction cs with
  | nil => intro a b h; simp [splitAtClose] at h
  | cons c1 tl ih =>
    intro a b h
    cases tl with
    | nil => simp [splitAtClose] at h
    | cons c2 rest =>
      rw [splitAtClose] at h
      split at h
      · simp at h
        simp [← h.2]
      · simp only [Option.map_eq_some'] at h
        obtain ⟨p, hp, hpe⟩ := h
        have := ih p.1 p.2 hp
        cases hpe
        simp at this ⊢
        omega

/-- Whitespace-trimming on raw characters (the engine strips the inside
of a tag before interpreting it). -/
def trimChars (cs : List Char) : List Char :=
  ((cs.dropWhile Char.isWhitespace).reverse.dropWhile
    Char.isWhitespace).reverse

/-- First word of the inside of a `{% ... %}` tag (the tag name). -/
def blockTag (inside : List Char) : String :=
  String.mk ((inside.dropWhile Char.isWhitespace).takeWhile
    (fun c => !c.isWhitespace))

/-- `s` starts with `pre` (on raw characters). -/
def strStartsWith (s pre : String) : Bool :=
  pre.data.isPrefixOf s.data

/-- Lexer for template text, with an explicit step budget so that the
recursion is structural (the budget strictly dominates the scan): a
left-to-right scan producing variable tags, block tags and
single-character text chunks.  An opening marker with no matching
terminator anywhere to its right is literal text (the engine's regex
simply does not match there). -/
def lexAux : Nat → List Char → List Token
  | 0, _ => []
  | _ + 1, [] => []
  | _ + 1, [c] => [.text [c]]
  | fuel + 1, c1 :: c2 :: rest =>
    if c1 = '{' ∧ c2 = '{' then
      match splitAtClose '}' rest with
      | some (inside, after) =>
        .varTok (String.mk (trimChars inside)) :: lexAux fuel after
      | none => .text [c1] :: lexAux fuel (c2 :: rest)
    else if c1 = '{' ∧ c2 = '%' then
      match splitAtClose '%' rest with
      | some (inside, after) =>
        .blockTok (blockTag inside) :: lexAux fuel after
      | none => .text [c1] :: lexAux fuel (c2 :: rest)
    else .text [c1] :: lexAux fuel (c2 :: rest)

/-- The lexer proper: the text length is always budget enough, since
every scan step consumes at least one character. -/
def lex (cs : List Char) : List Token :=
  lexAux cs.length cs

theorem lexAux_nil (fuel : Nat) : lexAux fuel [] = [] := by
  cases fuel <;> rfl

/-- The step budget is irrelevant as long as it covers the text length. -/
theorem lexAux_fuel :
    ∀ (fuel fuel' : Nat) (cs : List Char), cs.length ≤ fuel →
      cs.length ≤ fuel' → lexAux fuel cs = lexAux fuel' cs := by
  intro fuel
  induction fuel with
  | zero =>
    intro fuel' cs hl _
    have hnil : cs = [] := List.eq_nil_of_length_eq_zero (Nat.le_zero.mp hl)
    subst hnil
    rw [lexAux_nil, lexAux_nil]
  | succ fuel ih =>
    intro fuel' cs hl hl'
    match cs, fuel' with
    | [], fuel' => rw [lexAux_nil, lexAux_nil]
    | [c], 0 => simp at hl'
    | [c], f' + 1 => rfl
    | c1 :: c2 :: rest, 0 => simp at hl'
    | c1 :: c2 :: rest, f' + 1 =>
      simp only [List.length_cons] at hl hl'
      simp only [lexAux]
      by_cases h1 : c1 = '{' ∧ c2 = '{'
      · simp only [if_pos h1]
        cases hs : splitAtClose '}' rest with
        | some p =>
          obtain ⟨inside, after⟩ := p
          have hal := splitAtClose_length '}' rest _ _ hs
          simp only []
          rw [ih f' after (by omega) (by omega)]
        | none =>
          simp only []
          rw [ih f' (c2 :: rest) (by simp; omega) (by simp; omega)]
      · simp only [if_neg h1]
        by_cases h2 : c1 = '{' ∧ c2 = '%'
        · simp only [if_pos h2]
          cases hs : splitAtClose '%' rest with
          | some p =>
            obtain ⟨inside, after⟩ := p
            have hal := splitAtClose_length '%' rest _ _ hs
            simp only []
            rw [ih f' after (by omega) (by omega)]
          | none =>
            simp only []
            rw [ih f' (c2 :: rest) (by simp; omega) (by simp; omega)]
        · simp only [if_neg h2]
          rw [ih f' (c2 :: rest) (by simp; omega) (by simp; omega)]

/-- Unfolding equation of `lex` on the plain-text path. -/
theorem lex_cons_other {c1 c2 : Char} (rest : List Char)
    (h1 : ¬(c1 = '{' ∧ c2 = '{')) (h2 : ¬(c1 = '{' ∧ c2 = '%')) :
    lex (c1 :: c2 :: rest) = .text [c1] :: lex (c2 :: rest) := by
  show lexAux (rest.length + 1 + 1) _ = _
  simp only [lexAux, if_neg h1, if_neg h2]
  rfl

/-- Block tags that open a region and require a matching `end<tag>`
(the default tag library of the modelled engine). -/
def blockOpeners : List String :=
  ["autoescape", "block", "blocktranslate", "comment", "filter", "for",
   "if", "ifchanged", "spaceless", "verbatim", "with"]

/-- Block tags that stand alone (or delimit branches inside an open
region) and need no terminator. -/
def standaloneTags : List String :=
  ["csrf_token", "cycle", "debug", "elif", "else", "empty", "extends",
   "include", "load", "lorem", "now", "regroup", "resetcycle",
   "templatetag", "url", "widthratio"]

/-- Template parser used by `DjangoTemplate(...)` at construction time:
checks every variable tag is non-empty, every block tag is known, and
every opening block tag is terminated by its matching `end<tag>` (a
`TemplateSyntaxError` otherwise).  `stack` holds the currently open
block tags, innermost first. -/
def parseTokens : List Token → List String → Bool
  | [], [] => true
  | [], _ :: _ => false
  | .text _ :: ts, stack => parseTokens ts stack
  | .varTok n :: ts, stack => n ≠ "" && parseTokens ts stack
  | .blockTok tag :: ts, stack =>
    if strStartsWith tag "end" then
      match stack with
      | [] => false
      | top :: stack' => tag == "end" ++ top && parseTokens ts stack'
    else if blockOpeners.contains tag then parseTokens ts (tag :: stack)
    else if standaloneTags.contains tag then parseTokens ts stack
    else false

/-- `parseOk s` iff `DjangoTemplate(s)` constructs without raising
`TemplateSyntaxError`. -/
def parseOk (s : String) : Bool :=
  parseTokens (lex s.data) []

/-- Value substituted for a variable tag: the context value if present,
otherwise the engine default `string_if_invalid`, the empty string. -/
def lookupVar (vars : List (String × String)) (n : String) : String :=
  match vars.lookup n with
  | some v => v
  | none => ""

/-- Rendering of a lexed token stream against a variable context.  Block
tags contribute no output in the modelled fragment (their runtime
execution is out of scope; render theorems restrict to block-free text). -/
def renderTokens (vars : List (String × String)) : List Token → List Char
  | [] => []
  | .text s :: ts => s ++ renderTokens vars ts
  | .varTok n :: ts => (lookupVar vars n).data ++ renderTokens vars ts
  | .blockTok _ :: ts => renderTokens vars ts

/-- `DjangoTemplate(s).render(Context(vars))`. -/
def renderTmpl (s : String) (vars : List (String × String)) : String :=
  String.mk (renderTokens vars (lex s.data))

/-- Names of the `{{ name }}` placeholders occurring in template text. -/
def varNames (s : String) : List String :=
  (lex s.data).filterMap (fun tok =>
    match tok with
    | .varTok n => some n
    | _ => none)

/-- A token is brace-free text or a variable tag: text chunks without an
opening brace, no block tags.  Output made only of such material lexes
back to pure text, i.e. carries no residual placeholder. -/
def tokenTextSafe : Token → Prop
  | .text s => ∀ ch ∈ s, ch ≠ '{'
  | .varTok _ => True
  | .blockTok _ => False

instance : DecidablePred tokenTextSafe := by
  intro tok
  cases tok <;> simp [tokenTextSafe] <;> infer_instance

/-!
## Queries over the store (the ORM filters used in views.py)
-/

/-- `Template.objects.filter(code=code, language=language)`. -/
def groupRows (store : Store) (code lang : String) : List Template :=
  store.filter (fun t => t.code == code && t.language == lang)

/-- `Template.objects.filter(code=code, language=language, is_active=True)`. -/
def activeRows (store : Store) (code lang : String) : List Template :=
  store.filter (fun t => t.code == code && t.language == lang && t.is_active)

/-- The row with the greatest `version` of a list of rows, if any: both
`.order_by('-version').first()` and `.latest("version")` on an ORM result
set.  Ties cannot arise inside one `(code, language)` group because
`(code, language, version)` is unique. -/
def maxByVersion : List Template → Option Template
  | [] => none
  | t :: ts =>
    match maxByVersion ts with
    | none => some t
    | some u => if u.version ≤ t.version then some t else some u

/-!
## Create (serializers.py TemplateSerializer + views.py
TemplateListCreateView)
-/

/-- Body of `POST /templates/`.  `version` and `is_active` are
`read_only_fields` of the serializer, so they do not appear: a client
cannot supply them. -/
structure CreateRequest where
  code : String
  name : String
  language : Option String
  subject : Option String
  content : String
deriving Repr, DecidableEq

/-- Serializer validation on create: required `CharField`s must be
non-blank, and `validate_content` requires `content` to be accepted by
`DjangoTemplate(...)`.  There is no validator on `subject`. -/
def validateCreate (req : CreateRequest) : Bool :=
  req.code ≠ "" && req.name ≠ "" && req.content ≠ "" && parseOk req.content

/-- `Template.objects.filter(code=..., language=...).order_by('-version')
.first()` in `perform_create`. -/
def latestRow (store : Store) (code lang : String) : Option Template :=
  maxByVersion (groupRows store code lang)

/-- `latest.version + 1 if latest else 1`. -/
def nextVersion (store : Store) (code lang : String) : Nat :=
  match latestRow store code lang with
  | some latest => latest.version + 1
  | none => 1

/-- Effect of `filter(code=..., language=...).exclude(version=v)
.update(is_active=False)` on one row: rows of the group other than
version `v` lose their active flag, every other row is untouched. -/
def deactivateRow (code lang : String) (v : Nat) (t : Template) : Template :=
  if t.code == code && t.language == lang && t.version != v then
    { t with is_active := false }
  else t

/-- `Template.objects.filter(code=..., language=...).exclude(version=v)
.update(is_active=False)`. -/
def deactivateOthers (store : Store) (code lang : String) (v : Nat) : Store :=
  store.map (deactivateRow code lang v)

/-- The row `serializer.save(version=next_version)` inserts: client
fields, server-assigned id and version, model default `is_active=True`. -/
def createdRow (store : Store) (freshId : Nat) (req : CreateRequest) :
    Template :=
  { id := freshId, code := req.code, name := req.name,
    language := req.language.getD "en", subject := req.subject,
    content := req.content,
    version := nextVersion store req.code (req.language.getD "en"),
    is_active := true }

/-- `perform_create`: compute the next version, save the new row, then
deactivate every other row of the `(code, language)` group.  Returns the
new store and the created row. -/
def performCreate (store : Store) (freshId : Nat) (req : CreateRequest) :
    Store × Template :=
  let row := createdRow store freshId req
  (deactivateOthers (store ++ [row]) req.code (req.language.getD "en")
      row.version,
    row)

/-- `TemplateListCreateView.create`: serializer validation
(`is_valid(raise_exception=True)`) then `perform_create`; `none` is the
`ValidationError` (HTTP 400) outcome. -/
def createView (store : Store) (freshId : Nat) (req : CreateRequest) :
    Option (Store × Template) :=
  if validateCreate req then some (performCreate store freshId req) else none

/-- Modelled from the spec: the HTTP boundary of `POST /templates/` with
its transaction discipline.  The transaction configuration
(`ATOMIC_REQUESTS` in the Django settings module) is not under `src/`;
per the spec the create executes atomically, so a failed create leaves
the store exactly as it was, and a successful one installs the insert
and the deactivations as a unit.  Returns (HTTP status, resulting store,
created row if any). -/
def createEndpoint (store : Store) (freshId : Nat) (req : CreateRequest) :
    Nat × Store × Option Template :=
  match createView store freshId req with
  | some (store', row) => (201, store', some row)
  | none => (400, store, none)

/-- One sequential run of `POST /templates/` requests, each with a fresh
id; `none` as soon as one create fails, otherwise the final store and the
created rows in creation order. -/
def createSeq (store : Store) (freshId : Nat) :
    List CreateRequest → Option (Store × List Template)
  | [] => some (store, [])
  | req :: reqs =>
    match createView store freshId req with
    | none => none
    | some (store', row) =>
      match createSeq store' (freshId + 1) reqs with
      | none => none
      | some (store'', rows) => some (store'', row :: rows)

/-!
## Direct row update (views.py TemplateDetailView PATCH/PUT)
-/

/-- Body of a `PATCH /templates/{id}/`: any subset of serializer fields.
`version` and `is_active` may be present in the request JSON, but being
`read_only_fields` the serializer never reads them into
`validated_data`. -/
structure UpdateRequest where
  code : Option String
  name : Option String
  language : Option String
  subject : Option (Option String)
  content : Option String
  version : Option Nat
  is_active : Option Bool
deriving Repr, DecidableEq

/-- Serializer save on update: writable fields provided in the request
replace the instance's, read-only fields (`id`, `version`, `is_active`,
timestamps) are untouched. -/
def applyUpdate (t : Template) (req : UpdateRequest) : Template :=
  { t with
    code := req.code.getD t.code,
    name := req.name.getD t.name,
    language := req.language.getD t.language,
    subject := req.subject.getD t.subject,
    content := req.content.getD t.content }

/-- Validation on update: `validate_content` runs only when `content` is
part of the request; non-blank checks for provided `CharField`s. -/
def validateUpdate (req : UpdateRequest) : Bool :=
  (match req.content with | some c => c ≠ "" && parseOk c | none => true)
    && (match req.code with | some c => c ≠ "" | none => true)
    && (match req.name with | some n => n ≠ "" | none => true)

/-- The store-level `unique_together` check: the updated row may not share
`(code, language, version)` with a different row. -/
def tripleClash (store : Store) (t : Template) : Bool :=
  store.any (fun u =>
    u.id != t.id && u.code == t.code && u.language == t.language
      && u.version == t.version)

/-- `TemplateDetailView.update` (PATCH/PUT): find the row by id (404 when
absent), run serializer validation, save the writable fields, subject to
the store's uniqueness constraint.  `none` collapses the non-200
outcomes (404 / 400 / integrity error). -/
def updateView (store : Store) (tid : Nat) (req : UpdateRequest) :
    Option Store :=
  match store.find? (fun t => t.id == tid) with
  | none => none
  | some t =>
    let t' := applyUpdate t req
    if validateUpdate req && !tripleClash store t' then
      some (store.map (fun u => if u.id == tid then t' else u))
    else none

/-!
## Render (views.py RenderTemplateView)
-/

/-- Body of `POST /templates/render/`; `vars` is the JSON field
`variables` (that word is a reserved command name here). -/
structure RenderRequest where
  code : Option String
  language : Option String
  vars : List (String × String)
deriving Repr, DecidableEq

/-- The `data` object of a successful render response. -/
structure RenderData where
  code : String
  subject : Option String
  content : String
  version : Nat
  language : String
deriving Repr, DecidableEq

/-- Outcome of `RenderTemplateView.post`.  The 500 `render_error` branch
(a `TemplateSyntaxError` thrown while rendering) is unreachable in the
modelled fragment, where rendering is total. -/
inductive RenderResponse where
  | badRequest
  | notFound
  | ok (data : RenderData)
deriving Repr, DecidableEq

/-- HTTP status of a `RenderResponse`. -/
def renderStatus : RenderResponse → Nat
  | .badRequest => 400
  | .notFound => 404
  | .ok _ => 200

/-- `RenderTemplateView.post`: 400 when `code` is falsy (absent or empty),
404 when `filter(code, language, is_active=True).latest("version")` raises
`DoesNotExist`, else 200 with rendered `content` and the raw stored
`subject` (the view renders only `content`). -/
def renderView (store : Store) (req : RenderRequest) : RenderResponse :=
  match req.code with
  | none => .badRequest
  | some c =>
    if c = "" then .badRequest
    else
      let lang := (req.language).getD "en"
      match maxByVersion (activeRows store c lang) with
      | none => .notFound
      | some t =>
        .ok { code := t.code, subject := t.subject,
              content := renderTmpl t.content req.vars,
              version := t.version, language := t.language }

/-!
## Version listing (views.py TemplateVersionListView)
-/

/-- `order_by('-version')`: version-descending order. -/
def sortByVersionDesc (l : List Template) : List Template :=
  l.insertionSort (fun a b => b.version ≤ a.version)

instance : IsTotal Template (fun a b => b.version ≤ a.version) :=
  ⟨fun a b => (Nat.le_total b.version a.version).elim Or.inl Or.inr⟩

instance : IsTrans Template (fun a b => b.version ≤ a.version) :=
  ⟨fun _ _ _ hab hbc => le_trans hbc hab⟩

/-- `GET /templates/{code}/versions/?language=`: all rows of the
`(code, language)` group, newest first; always HTTP 200 (first
component). -/
def listVersionsView (store : Store) (code : String)
    (language : Option String) : Nat × List Template :=
  (200, sortByVersionDesc (groupRows store code (language.getD "en")))

/-!
## Concrete fixtures (used to instantiate the theorems below)
-/

/-- Two valid create requests for the `("welcome", "en")` group. -/
def reqW1 : CreateRequest :=
  { code := "welcome", name := "Welcome v1", language := none,
    subject := some "Welcome {{name}}!",
    content := "Hello {{name}}, welcome to {{company}}!" }

def reqW2 : CreateRequest :=
  { code := "welcome", name := "Welcome v2", language := none,
    subject := none, content := "Hi {{name}}" }

/-- The row created by `reqW1` on an empty store. -/
def rowW1 : Template :=
  { id := 0, code := "welcome", name := "Welcome v1", language := "en",
    subject := some "Welcome {{name}}!",
    content := "Hello {{name}}, welcome to {{company}}!", version := 1,
    is_active := true }

/-- The row created by `reqW2` right after `reqW1`. -/
def rowW2 : Template :=
  { id := 1, code := "welcome", name := "Welcome v2", language := "en",
    subject := none, content := "Hi {{name}}", version := 2,
    is_active := true }

/-- The store after both creates: version 1 deactivated, version 2
active. -/
def storeW : Store :=
  [{ rowW1 with is_active := false }, rowW2]

/-- A create request whose `subject` is syntactically invalid template
text while its `content` is valid. -/
def reqBadSubject : CreateRequest :=
  { code := "bad", name := "Bad", language := none,
    subject := some "{% for x in y %}{{x}}", content := "ok" }

/-- The row `reqBadSubject` persists on an empty store. -/
def rowBadSubject : Template :=
  { id := 0, code := "bad", name := "Bad", language := "en",
    subject := some "{% for x in y %}{{x}}", content := "ok", version := 1,
    is_active := true }

/-- A create request whose `content` is syntactically invalid. -/
def reqBadContent : CreateRequest :=
  { code := "bad", name := "Bad", language := none, subject := none,
    content := "{% for x in y %}{{x}}" }

/-- A stored template whose subject carries a placeholder. -/
def tplSubject : Template :=
  { id := 0, code := "welcome", name := "Welcome", language := "en",
    subject := some "Hello {{name}}!", content := "Hi {{name}}",
    version := 1, is_active := true }

/-- Render request for the fixtures. -/
def reqRender : RenderRequest :=
  { code := some "welcome", language := none, vars := [("name", "Alice")] }

/-- An inactive stored row. -/
def rowInact : Template :=
  { id := 0, code := "w", name := "n", language := "en", subject := none,
    content := "c", version := 1, is_active := false }

/-- A PATCH body that tries to set the read-only `is_active` field. -/
def patchActive : UpdateRequest :=
  { code := none, name := none, language := none, subject := none,
    content := none, version := none, is_active := some true }

/-- A PATCH body that only changes `language`. -/
def patchLang : UpdateRequest :=
  { code := none, name := none, language := some "en", subject := none,
    content := none, version := none, is_active := none }

/-- Active English v2 row of code `welcome`. -/
def rowEnActive : Template :=
  { id := 0, code := "welcome", name := "n", language := "en",
    subject := none, content := "c", version := 2, is_active := true }

/-- Inactive English v1 row of code `welcome`. -/
def rowEnOld : Template :=
  { id := 9, code := "welcome", name := "n", language := "en",
    subject := none, content := "c", version := 1, is_active := false }

/-- Active Portuguese v3 row of code `welcome`. -/
def rowPtActive : Template :=
  { id := 1, code := "welcome", name := "n", language := "pt",
    subject := none, content := "c", version := 3, is_active := true }

/-- The store after `patchLang` moves the Portuguese active row into the
English group: two active English rows. -/
def storeTwoActive : Store :=
  [rowEnActive, rowEnOld, { rowPtActive with language := "en" }]

/-!
## Lemmas about the store queries
-/

theorem mem_groupRows {t : Template} {s : Store} {c l : String} :
    t ∈ groupRows s c l ↔ t ∈ s ∧ t.code = c ∧ t.language = l := by
  simp [groupRows, List.mem_filter]

theorem mem_activeRows {t : Template} {s : Store} {c l : String} :
    t ∈ activeRows s c l
      ↔ t ∈ s ∧ t.code = c ∧ t.language = l ∧ t.is_active = true := by
  simp [activeRows, List.mem_filter, and_assoc]

theorem groupRows_append (s₁ s₂ : Store) (c l : String) :
    groupRows (s₁ ++ s₂) c l = groupRows s₁ c l ++ groupRows s₂ c l := by
  simp [groupRows]

theorem maxByVersion_eq_none_iff (l : List Template) :
    maxByVersion l = none ↔ l = [] := by
  cases l with
  | nil => simp [maxByVersion]
  | cons t ts =>
    simp only [maxByVersion]
    constructor
    · intro h
      split at h <;> (try split at h) <;> simp_all
    · intro h
      exact absurd h (by simp)

theorem maxByVersion_mem {l : List Template} :
    ∀ {t : Template}, maxByVersion l = some t → t ∈ l := by
  induction l with
  | nil => intro t h; simp [maxByVersion] at h
  | cons u ts ih =>
    intro t h
    rw [maxByVersion] at h
    cases hts : maxByVersion ts with
    | none =>
      rw [hts] at h
      have hu : u = t := by simpa using h
      simp [← hu]
    | some w =>
      rw [hts] at h
      by_cases hle : w.version ≤ u.version
      · have hu : u = t := by simpa [hle] using h
        simp [← hu]
      · have hw : w = t := by simpa [hle] using h
        exact hw ▸ List.mem_cons_of_mem u (ih hts)

theorem maxByVersion_le {l : List Template} :
    ∀ {t : Template}, maxByVersion l = some t → ∀ x ∈ l,
      x.version ≤ t.version := by
  induction l with
  | nil => intro t h; simp [maxByVersion] at h
  | cons u ts ih =>
    intro t h x hx
    rw [maxByVersion] at h
    cases hts : maxByVersion ts with
    | none =>
      rw [hts] at h
      have hu : u = t := by simpa using h
      have hts' : ts = [] := (maxByVersion_eq_none_iff ts).mp hts
      subst hts'
      simp at hx
      simp [hx, ← hu]
    | some w =>
      rw [hts] at h
      by_cases hle : w.version ≤ u.version
      · have hu : u = t := by simpa [hle] using h
        rcases List.mem_cons.mp hx with hxu | hxts
        · simp [hxu, ← hu]
        · have hxw := le_trans (ih hts x hxts) hle
          exact hu ▸ hxw
      · have hw : w = t := by simpa [hle] using h
        rcases List.mem_cons.mp hx with hxu | hxts
        · subst hxu; rw [← hw]; omega
        · exact hw ▸ ih hts x hxts

/-!
## Lemmas about create
-/

theorem deactivateRow_code (c l : String) (v : Nat) (t : Template) :
    (deactivateRow c l v t).code = t.code := by
  unfold deactivateRow; split <;> rfl

theorem deactivateRow_language (c l : String) (v : Nat) (t : Template) :
    (deactivateRow c l v t).language = t.language := by
  unfold deactivateRow; split <;> rfl

theorem deactivateRow_version (c l : String) (v : Nat) (t : Template) :
    (deactivateRow c l v t).version = t.version := by
  unfold deactivateRow; split <;> rfl

theorem deactivateRow_id (c l : String) (v : Nat) (t : Template) :
    (deactivateRow c l v t).id = t.id := by
  unfold deactivateRow; split <;> rfl

theorem deactivateRow_eq_self {c l : String} {v : Nat} {t : Template}
    (h : t.version = v) : deactivateRow c l v t = t := by
  unfold deactivateRow
  have : (t.version != v) = false := by simp [h]
  simp [this]

theorem deactivateRow_inactive {c l : String} {v : Nat} {t : Template}
    (hc : t.code = c) (hl : t.language = l) (hv : t.version ≠ v) :
    (deactivateRow c l v t).is_active = false := by
  unfold deactivateRow
  have : (t.version != v) = true := by simp [hv]
  simp [hc, hl, this]

theorem groupRows_deactivateOthers (s : Store) (c l : String) (v : Nat) :
    groupRows (deactivateOthers s c l v) c l
      = (groupRows s c l).map (deactivateRow c l v) := by
  induction s with
  | nil => rfl
  | cons t ts ih =>
    simp only [deactivateOthers, List.map_cons, groupRows,
      List.filter_cons] at *
    rw [deactivateRow_code, deactivateRow_language]
    split
    · simpa using ih
    · simpa using ih

theorem versions_deactivateOthers (s : Store) (c l : String) (v : Nat) :
    (groupRows (deactivateOthers s c l v) c l).map (fun t => t.version)
      = (groupRows s c l).map (fun t => t.version) := by
  rw [groupRows_deactivateOthers, List.map_map]
  exact List.map_congr_left (fun t _ => deactivateRow_version c l v t)

/-- After the deactivation pass, the active rows of the group are exactly
the previously active rows carrying the kept version (those rows are not
touched by the pass). -/
theorem activeRows_deactivateOthers (s : Store) (c l : String) (v : Nat) :
    activeRows (deactivateOthers s c l v) c l
      = s.filter (fun t =>
          t.code == c && t.language == l && t.version == v && t.is_active) := by
  unfold activeRows deactivateOthers
  rw [List.filter_map]
  have hpred : ∀ t ∈ s,
      ((fun t => t.code == c && t.language == l && t.is_active)
          ∘ deactivateRow c l v) t
        = (t.code == c && t.language == l && t.version == v
            && t.is_active) := by
    intro t _
    show ((deactivateRow c l v t).code == c
        && (deactivateRow c l v t).language == l
        && (deactivateRow c l v t).is_active) = _
    rw [deactivateRow_code, deactivateRow_language]
    by_cases hc : t.code = c
    · by_cases hl : t.language = l
      · by_cases hv : t.version = v
        · rw [deactivateRow_eq_self hv]
          simp [hc, hl, hv]
        · rw [deactivateRow_inactive hc hl hv]
          simp [hc, hl, hv]
      · have hbl : (t.language == l) = false := by simp [hl]
        simp [deactivateRow, hbl]
    · have hbc : (t.code == c) = false := by simp [hc]
      simp [deactivateRow, hbc]
  rw [List.filter_congr hpred]
  refine (List.map_congr_left ?_).trans (List.map_id _)
  intro t ht
  have := (List.mem_filter.mp ht).2
  simp only [Bool.and_eq_true, beq_iff_eq] at this
  exact deactivateRow_eq_self this.1.2

theorem version_lt_nextVersion (s : Store) (c l : String) :
    ∀ t ∈ groupRows s c l, t.version < nextVersion s c l := by
  intro t ht
  cases h : maxByVersion (groupRows s c l) with
  | none =>
    rw [(maxByVersion_eq_none_iff _).mp h] at ht
    simp at ht
  | some u =>
    have hnv : nextVersion s c l = u.version + 1 := by
      simp [nextVersion, latestRow, h]
    have := maxByVersion_le h t ht
    omega

theorem nextVersion_of_empty {s : Store} {c l : String}
    (h : groupRows s c l = []) : nextVersion s c l = 1 := by
  simp [nextVersion, latestRow, h, maxByVersion]

/-- If version `v` is attained in the group and bounds every group row,
the next assigned version is `v + 1`. -/
theorem nextVersion_of_max {s : Store} {c l : String} {v : Nat}
    (hub : ∀ t ∈ groupRows s c l, t.version ≤ v)
    (hat : ∃ t ∈ groupRows s c l, t.version = v) :
    nextVersion s c l = v + 1 := by
  obtain ⟨t0, ht0, hv0⟩ := hat
  cases h : maxByVersion (groupRows s c l) with
  | none =>
    rw [(maxByVersion_eq_none_iff _).mp h] at ht0
    simp at ht0
  | some u =>
    have hnv : nextVersion s c l = u.version + 1 := by
      simp [nextVersion, latestRow, h]
    have h1 : u.version ≤ v := hub u (maxByVersion_mem h)
    have h2 : v ≤ u.version := hv0 ▸ maxByVersion_le h t0 ht0
    omega

theorem groupRows_singleton_created (s : Store) (i : Nat)
    (req : CreateRequest) :
    groupRows [createdRow s i req] req.code (req.language.getD "en")
      = [createdRow s i req] := by
  simp [groupRows, createdRow]

/-- The version multiset of the group after a create: the old versions
plus the newly assigned one. -/
theorem create_group_versions (s : Store) (i : Nat) (req : CreateRequest) :
    (groupRows (performCreate s i req).1 req.code
        (req.language.getD "en")).map (fun t => t.version)
      = (groupRows s req.code (req.language.getD "en")).map
          (fun t => t.version)
        ++ [nextVersion s req.code (req.language.getD "en")] := by
  show (groupRows (deactivateOthers _ _ _ _) _ _).map _ = _
  rw [versions_deactivateOthers, groupRows_append,
    groupRows_singleton_created]
  simp [createdRow]

/-- After `perform_create` the active rows of the `(code, language)`
group are exactly the created row. -/
theorem create_activeRows (s : Store) (i : Nat) (req : CreateRequest) :
    activeRows (performCreate s i req).1 req.code (req.language.getD "en")
      = [createdRow s i req] := by
  show activeRows (deactivateOthers _ _ _ _) _ _ = _
  rw [activeRows_deactivateOthers, List.filter_append]
  have hnil : (s.filter (fun t =>
      t.code == req.code && t.language == req.language.getD "en"
        && t.version == (createdRow s i req).version && t.is_active)) = [] := by
    rw [List.filter_eq_nil_iff]
    intro t ht
    intro hq
    simp only [Bool.and_eq_true, beq_iff_eq] at hq
    obtain ⟨⟨⟨hc, hl⟩, hv⟩, _⟩ := hq
    have hmem : t ∈ groupRows s req.code (req.language.getD "en") :=
      mem_groupRows.mpr ⟨ht, hc, hl⟩
    have := version_lt_nextVersion s req.code (req.language.getD "en") t hmem
    rw [hv] at this
    simp [createdRow] at this
  rw [hnil]
  simp [createdRow]

theorem create_nextVersion (s : Store) (i : Nat) (req : CreateRequest) :
    nextVersion (performCreate s i req).1 req.code (req.language.getD "en")
      = nextVersion s req.code (req.language.getD "en") + 1 := by
  apply nextVersion_of_max
    (v := nextVersion s req.code (req.language.getD "en"))
  · intro t ht
    have hver : t.version ∈ (groupRows (performCreate s i req).1 req.code
        (req.language.getD "en")).map (fun t => t.version) :=
      List.mem_map_of_mem _ ht
    rw [create_group_versions] at hver
    rcases List.mem_append.mp hver with hold | hnew
    · obtain ⟨u, hu, huv⟩ := List.mem_map.mp hold
      have := version_lt_nextVersion s req.code (req.language.getD "en") u hu
      omega
    · simp at hnew
      omega
  · have hmem : nextVersion s req.code (req.language.getD "en")
        ∈ (groupRows (performCreate s i req).1 req.code
            (req.language.getD "en")).map (fun t => t.version) := by
      rw [create_group_versions]
      simp
    obtain ⟨u, hu, huv⟩ := List.mem_map.mp hmem
    exact ⟨u, hu, huv⟩

/-- Every group row other than the created one has a strictly smaller
version after the create. -/
theorem create_version_strict_max (s : Store) (i : Nat)
    (req : CreateRequest) :
    ∀ t ∈ groupRows (performCreate s i req).1 req.code
        (req.language.getD "en"),
      t ≠ createdRow s i req → t.version < (createdRow s i req).version := by
  intro t ht hne
  have hgrp : groupRows (performCreate s i req).1 req.code
        (req.language.getD "en")
      = (groupRows (s ++ [createdRow s i req]) req.code
            (req.language.getD "en")).map
          (deactivateRow req.code (req.language.getD "en")
            (createdRow s i req).version) := by
    show groupRows (deactivateOthers _ _ _ _) _ _ = _
    rw [groupRows_deactivateOthers]
  rw [hgrp] at ht
  obtain ⟨u, hu, hut⟩ := List.mem_map.mp ht
  rw [groupRows_append, groupRows_singleton_created] at hu
  rcases List.mem_append.mp hu with hold | hnew
  · have hlt := version_lt_nextVersion s req.code (req.language.getD "en")
      u hold
    have hveq : t.version = u.version := hut ▸ deactivateRow_version _ _ _ _
    simp only [createdRow] at *
    omega
  · simp at hnew
    rw [hnew] at hut
    rw [deactivateRow_eq_self rfl] at hut
    exact absurd hut.symm hne

/-!
## Lemmas about the placeholder engine
-/

/-- A variable missing from the context renders exactly as a variable
explicitly bound to the empty string. -/
theorem renderTokens_missing_var {vars : List (String × String)}
    {n : String} (hmiss : vars.lookup n = none) :
    ∀ ts, renderTokens vars ts = renderTokens ((n, "") :: vars) ts := by
  intro ts
  induction ts with
  | nil => rfl
  | cons tok ts ih =>
    cases tok with
    | text s => simp [renderTokens, ih]
    | blockTok tag => simp [renderTokens, ih]
    | varTok m =>
      simp only [renderTokens, ih]
      congr 1
      by_cases hm : m = n
      · subst hm
        simp [lookupVar, List.lookup, hmiss]
      · have : (m == n) = false := by simp [hm]
        simp [lookupVar, List.lookup, this]

theorem lookup_mem {α β : Type} [BEq α] {l : List (α × β)} {a : α} {b : β} :
    l.lookup a = some b → ∃ k, (k, b) ∈ l := by
  induction l with
  | nil => intro h; simp [List.lookup] at h
  | cons p l ih =>
    intro h
    obtain ⟨k, v⟩ := p
    rw [List.lookup] at h
    cases hk : a == k with
    | true =>
      rw [hk] at h
      simp at h
      exact ⟨k, by simp [h]⟩
    | false =>
      rw [hk] at h
      simp at h
      obtain ⟨k', hk'⟩ := ih h
      exact ⟨k', List.mem_cons_of_mem _ hk'⟩

/-- A character list without an opening brace lexes to pure text. -/
theorem lex_no_brace :
    ∀ (k : Nat) (cs : List Char), cs.length ≤ k →
      (∀ ch ∈ cs, ch ≠ '{') →
      lex cs = cs.map (fun ch => Token.text [ch]) := by
  intro k
  induction k with
  | zero =>
    intro cs hlen _
    have hnil : cs = [] := List.eq_nil_of_length_eq_zero (Nat.le_zero.mp hlen)
    subst hnil
    rfl
  | succ k ih =>
    intro cs hlen hbf
    match cs with
    | [] => rfl
    | [c] => rfl
    | c1 :: c2 :: rest =>
      have hc1 : c1 ≠ '{' := hbf c1 (by simp)
      rw [lex_cons_other rest (by simp [hc1]) (by simp [hc1])]
      rw [ih (c2 :: rest) (by simp at hlen ⊢; omega)
        (fun ch hch => hbf ch (List.mem_cons_of_mem c1 hch))]
      rfl

/-- Rendering text-safe tokens against brace-free variable values yields
brace-free output. -/
theorem renderTokens_no_brace {vars : List (String × String)}
    (hvars : ∀ p ∈ vars, ∀ ch ∈ p.2.data, ch ≠ '{') :
    ∀ ts, (∀ tok ∈ ts, tokenTextSafe tok) →
      ∀ ch ∈ renderTokens vars ts, ch ≠ '{' := by
  intro ts
  induction ts with
  | nil => intro _ ch hch; simp [renderTokens] at hch
  | cons tok ts ih =>
    intro hsafe ch hch
    cases tok with
    | text s =>
      simp only [renderTokens, List.mem_append] at hch
      rcases hch with h1 | h2
      · exact (hsafe (.text s) (by simp)) ch h1
      · exact ih (fun u hu => hsafe u (List.mem_cons_of_mem _ hu)) ch h2
    | varTok m =>
      simp only [renderTokens, List.mem_append] at hch
      rcases hch with h1 | h2
      · unfold lookupVar at h1
        cases hl : vars.lookup m with
        | none => rw [hl] at h1; simp at h1
        | some v =>
          rw [hl] at h1
          obtain ⟨k, hk⟩ := lookup_mem hl
          exact hvars (k, v) hk ch h1
      · exact ih (fun u hu => hsafe u (List.mem_cons_of_mem _ hu)) ch h2
    | blockTok tag =>
      exact absurd (hsafe (.blockTok tag) (by simp)) (by simp [tokenTextSafe])

theorem varNames_of_no_brace {s : String}
    (h : ∀ ch ∈ s.data, ch ≠ '{') : varNames s = [] := by
  unfold varNames
  rw [lex_no_brace s.data.length s.data le_rfl h]
  induction s.data with
  | nil => rfl
  | cons c cs ih => simpa using ih

/-- No literal placeholder survives rendering: when the template lexes to
text-safe tokens and the variable values are brace-free, the rendered
output contains no `{{ name }}` tag at all. -/
theorem renderTmpl_no_residual {content : String}
    {vars : List (String × String)}
    (htoks : ∀ tok ∈ lex content.data, tokenTextSafe tok)
    (hvars : ∀ p ∈ vars, ∀ ch ∈ p.2.data, ch ≠ '{') :
    varNames (renderTmpl content vars) = [] := by
  apply varNames_of_no_brace
  intro ch hch
  have hdata : (renderTmpl content vars).data
      = renderTokens vars (lex content.data) := rfl
  rw [hdata] at hch
  exact renderTokens_no_brace hvars _ htoks ch hch

theorem createView_eq_some {s : Store} {i : Nat} {req : CreateRequest}
    {s' : Store} {row : Template}
    (h : createView s i req = some (s', row)) :
    validateCreate req = true ∧ s' = (performCreate s i req).1
      ∧ row = createdRow s i req := by
  unfold createView at h
  split at h
  · refine ⟨by assumption, ?_, ?_⟩
    · have := congrArg (fun o => Option.map Prod.fst o) h
      simpa using this.symm
    · have := congrArg (fun o => Option.map Prod.snd o) h
      simpa [performCreate] using this.symm
  · exact absurd h (by simp)

/-- Versions assigned by a run of same-group creates: consecutive
integers starting at the group's next version. -/
theorem createSeq_versions {c l : String} :
    ∀ (reqs : List CreateRequest) (s : Store) (i : Nat) (s' : Store)
      (rows : List Template),
      (∀ r ∈ reqs, r.code = c ∧ r.language.getD "en" = l) →
      createSeq s i reqs = some (s', rows) →
      rows.map (fun t => t.version)
        = List.range' (nextVersion s c l) reqs.length := by
  intro reqs
  induction reqs with
  | nil =>
    intro s i s' rows hall h
    simp [createSeq] at h
    simp [← h.2]
  | cons r rs ih =>
    intro s i s' rows hall h
    rw [createSeq] at h
    cases hcv : createView s i r with
    | none => rw [hcv] at h; simp at h
    | some p =>
      obtain ⟨s₁, row⟩ := p
      rw [hcv] at h
      dsimp only [] at h
      cases hcs : createSeq s₁ (i + 1) rs with
      | none => rw [hcs] at h; simp at h
      | some q =>
        obtain ⟨s₂, rows'⟩ := q
        rw [hcs] at h
        simp at h
        obtain ⟨hr, hcl⟩ := hall r (List.mem_cons_self r rs)
        obtain ⟨hval, hs₁, hrow⟩ := createView_eq_some hcv
        have htail : rows'.map (fun t => t.version)
            = List.range' (nextVersion s₁ c l) rs.length :=
          ih s₁ (i + 1) s₂ rows'
            (fun x hx => hall x (List.mem_cons_of_mem r hx)) hcs
        have hnv₁ : nextVersion s₁ c l = nextVersion s c l + 1 := by
          rw [hs₁, ← hr, ← hcl]
          exact create_nextVersion s i r
        have hrv : row.version = nextVersion s c l := by
          rw [hrow]
          simp [createdRow, hr, hcl]
        rw [← h.2, List.map_cons, htail, hnv₁, hrv, List.length_cons,
          List.range'_succ]

/-!
## Lemmas about the render view
-/

theorem renderView_no_code {s : Store} {req : RenderRequest}
    (hc : req.code = none) : renderView s req = .badRequest := by
  unfold renderView
  rw [hc]

theorem renderView_notFound {s : Store} {req : RenderRequest} {c : String}
    (hc : req.code = some c) (hce : c ≠ "")
    (hm : maxByVersion (activeRows s c (req.language.getD "en")) = none) :
    renderView s req = .notFound := by
  unfold renderView
  rw [hc]
  dsimp only []
  rw [if_neg hce, hm]

theorem renderView_ok_of_max {s : Store} {req : RenderRequest} {c : String}
    {t : Template} (hc : req.code = some c) (hce : c ≠ "")
    (hm : maxByVersion (activeRows s c (req.language.getD "en")) = some t) :
    renderView s req = .ok
      { code := t.code, subject := t.subject,
        content := renderTmpl t.content req.vars, version := t.version,
        language := t.language } := by
  unfold renderView
  rw [hc]
  dsimp only []
  rw [if_neg hce, hm]

theorem renderView_ok_inv {s : Store} {req : RenderRequest} {d : RenderData}
    (h : renderView s req = .ok d) :
    ∃ c t, req.code = some c ∧ c ≠ ""
      ∧ maxByVersion (activeRows s c (req.language.getD "en")) = some t
      ∧ d = { code := t.code, subject := t.subject,
              content := renderTmpl t.content req.vars,
              version := t.version, language := t.language } := by
  unfold renderView at h
  cases hc : req.code with
  | none => rw [hc] at h; simp at h
  | some c =>
    rw [hc] at h
    dsimp only [] at h
    by_cases hce : c = ""
    · rw [if_pos hce] at h
      simp at h
    · rw [if_neg hce] at h
      cases hm : maxByVersion (activeRows s c (req.language.getD "en")) with
      | none => rw [hm] at h; simp at h
      | some t =>
        rw [hm] at h
        have hd := h
        simp at hd
        exact ⟨c, t, rfl, hce, hm, hd.symm⟩

/-!
## Claim theorems
-/

/-- C1: for every `(code, language)` group, create assigns version 1 when
no row exists for the group and max existing version + 1 otherwise (this
is `nextVersion`); hence every run of N successful creates with the same
`(code, language)`, starting from a store with no rows for the group, is
assigned exactly the versions 1..N in creation order, each strictly
greater than the previous. -/
theorem claim_C1_version_monotonicity
    (c l : String) (reqs : List CreateRequest) (s : Store) (i : Nat)
    (s' : Store) (rows : List Template)
    (hempty : groupRows s c l = [])
    (hsame : ∀ r ∈ reqs, r.code = c ∧ r.language.getD "en" = l)
    (hrun : createSeq s i reqs = some (s', rows)) :
    rows.map (fun t => t.version) = List.range' 1 reqs.length
      ∧ (rows.map (fun t => t.version)).Pairwise (· < ·) := by
  have hv := createSeq_versions reqs s i s' rows hsame hrun
  rw [nextVersion_of_empty hempty] at hv
  refine ⟨hv, ?_⟩
  rw [hv]
  exact List.pairwise_lt_range' 1 reqs.length

theorem claim_C1_version_monotonicity_witness :
    groupRows ([] : Store) "welcome" "en" = []
      ∧ createSeq ([] : Store) 0 [reqW1, reqW2] = some (storeW, [rowW1, rowW2])
      ∧ ([rowW1, rowW2].map (fun t => t.version) = List.range' 1 2
          ∧ ([rowW1, rowW2].map (fun t => t.version)).Pairwise (· < ·)) :=
  ⟨rfl, by decide,
    claim_C1_version_monotonicity "welcome" "en" [reqW1, reqW2] [] 0
      storeW [rowW1, rowW2] rfl (by decide) (by decide)⟩

/-- C2: after every successful create, the active rows of the
`(code, language)` group are exactly the just-created row, which belongs
to the group and carries a version strictly greater than every other
group row's. -/
theorem claim_C2_single_active
    (s : Store) (i : Nat) (req : CreateRequest) (s' : Store)
    (row : Template) (h : createView s i req = some (s', row)) :
    activeRows s' req.code (req.language.getD "en") = [row]
      ∧ row ∈ groupRows s' req.code (req.language.getD "en")
      ∧ ∀ t ∈ groupRows s' req.code (req.language.getD "en"),
          t ≠ row → t.version < row.version := by
  obtain ⟨hval, hs', hrow⟩ := createView_eq_some h
  subst hs'
  subst hrow
  refine ⟨create_activeRows s i req, ?_, create_version_strict_max s i req⟩
  have hact : createdRow s i req ∈ activeRows (performCreate s i req).1
      req.code (req.language.getD "en") := by
    rw [create_activeRows]
    simp
  have hm := mem_activeRows.mp hact
  exact mem_groupRows.mpr ⟨hm.1, hm.2.1, hm.2.2.1⟩

theorem claim_C2_single_active_witness :
    createView ([] : Store) 0 reqW1 = some ([rowW1], rowW1)
      ∧ activeRows [rowW1] "welcome" "en" = [rowW1] :=
  ⟨by decide,
    (claim_C2_single_active [] 0 reqW1 [rowW1] rowW1 (by decide)).1⟩

/-- C3: the create endpoint behaves atomically: a failed create returns
400 with the store exactly unchanged, and a successful one returns 201
with the inserted row and the deactivation of its group siblings applied
together, leaving the new row as the group's single active row — a store
in which the new version exists while prior versions are still active is
never returned. -/
theorem claim_C3_create_atomic (s : Store) (i : Nat) (req : CreateRequest) :
    ((createEndpoint s i req).1 = 400
        → (createEndpoint s i req).2.1 = s
          ∧ (createEndpoint s i req).2.2 = none)
      ∧ ((createEndpoint s i req).1 = 201
        → ∃ row, (createEndpoint s i req).2.2 = some row
            ∧ (createEndpoint s i req).2.1
                = deactivateOthers (s ++ [row]) req.code
                    (req.language.getD "en") row.version
            ∧ activeRows (createEndpoint s i req).2.1 req.code
                (req.language.getD "en") = [row]) := by
  unfold createEndpoint
  cases hcv : createView s i req with
  | none => simp
  | some p =>
    obtain ⟨s', row⟩ := p
    obtain ⟨hval, hs', hrow⟩ := createView_eq_some hcv
    subst hs'
    subst hrow
    dsimp only []
    constructor
    · intro h400
      exact absurd h400 (by simp)
    · intro _
      refine ⟨createdRow s i req, rfl, rfl, create_activeRows s i req⟩

theorem claim_C3_create_atomic_witness :
    (createEndpoint ([] : Store) 0 reqBadContent).1 = 400
      ∧ (createEndpoint ([] : Store) 0 reqBadContent).2.1 = []
      ∧ (createEndpoint ([] : Store) 0 reqBadContent).2.2 = none
      ∧ (createEndpoint ([] : Store) 1 reqW1).1 = 201
      ∧ activeRows (createEndpoint ([] : Store) 1 reqW1).2.1 "welcome" "en"
          = [{ rowW1 with id := 1 }] := by
  have hfail := (claim_C3_create_atomic [] 0 reqBadContent).1 (by decide)
  have hok := (claim_C3_create_atomic [] 1 reqW1).2 (by decide)
  obtain ⟨row, hsome, hstore, hactive⟩ := hok
  refine ⟨by decide, hfail.1, hfail.2, by decide, ?_⟩
  have hrow : row = { rowW1 with id := 1 } := by
    have : some row = some { rowW1 with id := 1 } := by
      rw [← hsome]; decide
    simpa using this
  rw [← hrow]
  exact hactive

/-- C4 counterexample: on a successful render the response `subject` is
the raw stored subject, not the subject passed through the renderer:
rendering the subject with the supplied variables would give
`"Hello Alice!"`, but the response carries `"Hello {{name}}!"`
unchanged. -/
theorem claim_C4_counterexample :
    renderView [tplSubject] reqRender
        = .ok { code := "welcome", subject := some "Hello {{name}}!",
                content := "Hi Alice", version := 1, language := "en" }
      ∧ renderTmpl "Hello {{name}}!" [("name", "Alice")] = "Hello Alice!"
      ∧ some "Hello {{name}}!" ≠ some "Hello Alice!" :=
  ⟨by decide, by decide, by decide⟩

/-- C4 (amended): for every successful render, `content` is passed
through the placeholder renderer with the supplied variables, while
`subject` is returned raw (not rendered); the response carries the
resolved version and language (and code) of the row that served the
request. -/
theorem claim_C4_render_response (s : Store) (req : RenderRequest)
    (d : RenderData) (h : renderView s req = .ok d) :
    ∃ c t, req.code = some c
      ∧ maxByVersion (activeRows s c (req.language.getD "en")) = some t
      ∧ d.content = renderTmpl t.content req.vars
      ∧ d.subject = t.subject
      ∧ d.version = t.version ∧ d.language = t.language
      ∧ d.code = t.code := by
  obtain ⟨c, t, hc, hce, hm, hd⟩ := renderView_ok_inv h
  exact ⟨c, t, hc, hm, by rw [hd], by rw [hd], by rw [hd], by rw [hd],
    by rw [hd]⟩

theorem claim_C4_render_response_witness :
    renderView [tplSubject] reqRender
        = .ok { code := "welcome", subject := some "Hello {{name}}!",
                content := "Hi Alice", version := 1, language := "en" }
      ∧ ∃ c t, reqRender.code = some c
          ∧ maxByVersion (activeRows [tplSubject] c
              (reqRender.language.getD "en")) = some t
          ∧ ("Hi Alice" : String) = renderTmpl t.content reqRender.vars
          ∧ (some "Hello {{name}}!" : Option String) = t.subject :=
  ⟨by decide, by
    obtain ⟨c, t, hc, hm, hcontent, hsubject, -⟩ :=
      claim_C4_render_response [tplSubject] reqRender
        { code := "welcome", subject := some "Hello {{name}}!",
          content := "Hi Alice", version := 1, language := "en" }
        (by decide)
    exact ⟨c, t, hc, hm, hcontent, hsubject⟩⟩

/-- C5 counterexample: a create whose `subject` is syntactically invalid
template text (the unterminated block of the spec's own scenario) is not
rejected: it succeeds and persists the row.  `subject` is never
validated. -/
theorem claim_C5_counterexample :
    parseOk "{% for x in y %}{{x}}" = false
      ∧ reqBadSubject.subject = some "{% for x in y %}{{x}}"
      ∧ createView ([] : Store) 0 reqBadSubject
          = some ([rowBadSubject], rowBadSubject) :=
  ⟨by decide, by decide, by decide⟩

/-- C5 (amended): at create time `content` is validated against the
placeholder syntax, and invalid content is rejected with a
ValidationError (HTTP 400) before any mutation, so no row is persisted;
`subject` is not validated. -/
theorem claim_C5_content_validation (s : Store) (i : Nat)
    (req : CreateRequest) (h : parseOk req.content = false) :
    createEndpoint s i req = (400, s, none) := by
  have hval : validateCreate req = false := by
    unfold validateCreate
    rw [h]
    simp
  unfold createEndpoint createView
  rw [hval]
  simp

theorem claim_C5_content_validation_witness :
    parseOk reqBadContent.content = false
      ∧ createEndpoint ([] : Store) 0 reqBadContent = (400, [], none) :=
  ⟨by decide, claim_C5_content_validation [] 0 reqBadContent (by decide)⟩

/-- C6: the render endpoint returns HTTP 400 when `code` is absent from
the body; it returns HTTP 404 exactly when the `(code, language)` group
has no active row — the identical NotFound outcome whether the code never
existed or all its versions are deactivated, since only the active-row
set is consulted; and on success it returns HTTP 200 with
`{code, subject, content, version, language}`. -/
theorem claim_C6_render_statuses (s : Store) (req : RenderRequest) :
    (req.code = none → renderView s req = .badRequest
        ∧ renderStatus (renderView s req) = 400)
      ∧ (∀ c, req.code = some c → c ≠ "" →
          (activeRows s c (req.language.getD "en") = []
              → renderView s req = .notFound
                ∧ renderStatus (renderView s req) = 404)
          ∧ (activeRows s c (req.language.getD "en") ≠ []
              → ∃ t, maxByVersion (activeRows s c (req.language.getD "en"))
                    = some t
                  ∧ renderView s req = .ok
                      { code := t.code, subject := t.subject,
                        content := renderTmpl t.content req.vars,
                        version := t.version, language := t.language }
                  ∧ renderStatus (renderView s req) = 200)) := by
  constructor
  · intro hc
    have := renderView_no_code (s := s) hc
    exact ⟨this, by rw [this]; rfl⟩
  · intro c hc hce
    constructor
    · intro hempty
      have hm : maxByVersion (activeRows s c (req.language.getD "en"))
          = none := (maxByVersion_eq_none_iff _).mpr hempty
      have := renderView_notFound hc hce hm
      exact ⟨this, by rw [this]; rfl⟩
    · intro hne
      cases hm : maxByVersion (activeRows s c (req.language.getD "en")) with
      | none => exact absurd ((maxByVersion_eq_none_iff _).mp hm) hne
      | some t =>
        have := renderView_ok_of_max hc hce hm
        exact ⟨t, rfl, this, by rw [this]; rfl⟩

theorem claim_C6_render_statuses_witness :
    renderStatus (renderView ([] : Store)
        { code := none, language := none, vars := [] }) = 400
      ∧ renderView ([] : Store)
          { code := some "nonexistent", language := none, vars := [] }
          = .notFound
      ∧ renderView [{ tplSubject with is_active := false }]
          { code := some "welcome", language := none, vars := [] }
          = .notFound
      ∧ renderStatus (renderView [tplSubject] reqRender) = 200 := by
  refine ⟨((claim_C6_render_statuses [] _).1 rfl).2, ?_, ?_, ?_⟩
  · exact (((claim_C6_render_statuses [] _).2 "nonexistent" rfl
      (by decide)).1 (by decide)).1
  · exact (((claim_C6_render_statuses
      [{ tplSubject with is_active := false }] _).2 "welcome" rfl
      (by decide)).1 (by decide)).1
  · obtain ⟨t, hm, hok, hstatus⟩ :=
      ((claim_C6_render_statuses [tplSubject] reqRender).2 "welcome"
        (by decide) (by decide)).2 (by decide)
    exact hstatus

/-- C7: ListVersions returns HTTP 200 and exactly the rows of the
`(code, language)` group ordered by version descending (newest first);
for an unknown code it returns the empty sequence with HTTP 200, not an
error. -/
theorem claim_C7_list_versions (s : Store) (code : String)
    (language : Option String) :
    (listVersionsView s code language).1 = 200
      ∧ (listVersionsView s code language).2.Perm
          (groupRows s code (language.getD "en"))
      ∧ (listVersionsView s code language).2.Sorted
          (fun a b => b.version ≤ a.version)
      ∧ (groupRows s code (language.getD "en") = []
          → (listVersionsView s code language).2 = []) := by
  refine ⟨rfl, List.perm_insertionSort _ _, List.sorted_insertionSort _ _,
    ?_⟩
  intro h
  show sortByVersionDesc (groupRows s code (language.getD "en")) = []
  rw [h]
  rfl

theorem claim_C7_list_versions_witness :
    (listVersionsView ([] : Store) "unknown" none).1 = 200
      ∧ (listVersionsView ([] : Store) "unknown" none).2 = []
      ∧ (listVersionsView storeW "welcome" none).2.map (fun t => t.version)
          = [2, 1] :=
  ⟨(claim_C7_list_versions [] "unknown" none).1,
    (claim_C7_list_versions [] "unknown" none).2.2.2 rfl, by decide⟩

/-- C8 counterexample: a direct PATCH carrying `is_active` cannot edit
it — `is_active` is a read-only serializer field.  The PATCH succeeds
but returns the row unchanged, still inactive, so a client cannot
activate a row (let alone two) by patching `is_active`. -/
theorem claim_C8_counterexample :
    patchActive.is_active = some true
      ∧ rowInact.is_active = false
      ∧ updateView [rowInact] 0 patchActive = some [rowInact] :=
  ⟨by decide, by decide, by decide⟩

/-- C8 (amended): direct PATCH/PUT edits only the writable fields
(`code`, `name`, `language`, `subject`, `content`); `is_active` and
`version` are read-only and are never changed for any row by an update.
The single-active invariant can nevertheless be violated without the
Version Manager: a single direct PATCH that changes an active row's
`language` moves it into a group that already has an active row, leaving
two rows of the same `(code, language)` pair active simultaneously. -/
theorem claim_C8_update_bypass :
    (∀ (s : Store) (tid : Nat) (req : UpdateRequest) (s' : Store),
        updateView s tid req = some s' →
        ∀ t' ∈ s', ∃ t ∈ s, t'.id = t.id ∧ t'.is_active = t.is_active
          ∧ t'.version = t.version)
      ∧ updateView [rowEnActive, rowEnOld, rowPtActive] 1 patchLang
          = some storeTwoActive
      ∧ (activeRows storeTwoActive "welcome" "en").length = 2 := by
  refine ⟨?_, by decide, by decide⟩
  intro s tid req s' h t' ht'
  unfold updateView at h
  cases hf : s.find? (fun t => t.id == tid) with
  | none => rw [hf] at h; simp at h
  | some t0 =>
    rw [hf] at h
    dsimp only [] at h
    split at h
    · have hs' : s' = s.map (fun u =>
          if u.id == tid then applyUpdate t0 req else u) := by
        simpa using h.symm
      subst hs'
      obtain ⟨t, hts, htt'⟩ := List.mem_map.mp ht'
      by_cases hid : (t.id == tid) = true
      · rw [if_pos hid] at htt'
        have ht0 : t0 ∈ s := List.mem_of_find?_eq_some hf
        refine ⟨t0, ht0, ?_, ?_, ?_⟩ <;>
          simp [← htt', applyUpdate]
      · rw [if_neg hid] at htt'
        exact ⟨t, hts, by rw [htt'], by rw [htt'], by rw [htt']⟩
    · exact absurd h (by simp)

theorem claim_C8_update_bypass_witness :
    updateView [rowInact] 0 patchActive = some [rowInact]
      ∧ (∃ t ∈ [rowInact], rowInact.id = t.id
          ∧ rowInact.is_active = t.is_active
          ∧ rowInact.version = t.version)
      ∧ (activeRows storeTwoActive "welcome" "en").length = 2 :=
  ⟨by decide,
    claim_C8_update_bypass.1 [rowInact] 0 patchActive [rowInact]
      (by decide) rowInact (by simp),
    claim_C8_update_bypass.2.2⟩

/-- C9: a render whose variables mapping omits a placeholder name
occurring in the active template's content still succeeds with HTTP 200;
the missing variable is substituted exactly as a variable explicitly
bound to the empty string would be, and — whenever the content lexes to
brace-free text and variable tags and the supplied values are
brace-free — no literal placeholder remains in the rendered content. -/
theorem claim_C9_missing_variable (s : Store) (req : RenderRequest)
    (c n : String) (t : Template)
    (hc : req.code = some c) (hce : c ≠ "")
    (hm : maxByVersion (activeRows s c (req.language.getD "en")) = some t)
    (hn : n ∈ varNames t.content)
    (hmiss : req.vars.lookup n = none) :
    renderStatus (renderView s req) = 200
      ∧ renderView s req = .ok
          { code := t.code, subject := t.subject,
            content := renderTmpl t.content req.vars,
            version := t.version, language := t.language }
      ∧ renderTmpl t.content req.vars
          = renderTmpl t.content ((n, "") :: req.vars)
      ∧ ((∀ tok ∈ lex t.content.data, tokenTextSafe tok)
          → (∀ p ∈ req.vars, ∀ ch ∈ p.2.data, ch ≠ '{')
          → varNames (renderTmpl t.content req.vars) = []) := by
  have hok := renderView_ok_of_max hc hce hm
  refine ⟨by rw [hok]; rfl, hok, ?_, ?_⟩
  · unfold renderTmpl
    rw [renderTokens_missing_var hmiss]
  · intro htoks hvars
    exact renderTmpl_no_residual htoks hvars

theorem claim_C9_missing_variable_witness :
    ("name" ∈ varNames tplSubject.content
        ∧ ([] : List (String × String)).lookup "name" = none)
      ∧ renderStatus (renderView [tplSubject]
          { code := some "welcome", language := none, vars := [] }) = 200
      ∧ renderTmpl "Hi {{name}}" ([] : List (String × String)) = "Hi "
      ∧ varNames (renderTmpl tplSubject.content
          ([] : List (String × String))) = [] := by
  obtain ⟨h200, hok, hsub, hres⟩ :=
    claim_C9_missing_variable [tplSubject]
      { code := some "welcome", language := none, vars := [] }
      "welcome" "name" tplSubject rfl (by decide) (by decide) (by decide)
      (by decide)
  exact ⟨⟨by decide, by decide⟩, h200, by decide,
    hres (by decide) (by decide)⟩

/-- C10: whenever the `(code, language)` group has at least one active
row — several are reachable only outside the normal create path, e.g.
via direct row edits — the render operation deterministically resolves
to an active row whose version is greatest among the active rows, rather
than failing or choosing arbitrarily. -/
theorem claim_C10_render_max_active (s : Store) (req : RenderRequest)
    (c : String) (hc : req.code = some c) (hce : c ≠ "")
    (hne : activeRows s c (req.language.getD "en") ≠ []) :
    ∃ t, maxByVersion (activeRows s c (req.language.getD "en")) = some t
      ∧ t ∈ activeRows s c (req.language.getD "en")
      ∧ (∀ u ∈ activeRows s c (req.language.getD "en"),
          u.version ≤ t.version)
      ∧ renderView s req = .ok
          { code := t.code, subject := t.subject,
            content := renderTmpl t.content req.vars,
            version := t.version, language := t.language } := by
  cases hm : maxByVersion (activeRows s c (req.language.getD "en")) with
  | none => exact absurd ((maxByVersion_eq_none_iff _).mp hm) hne
  | some t =>
    exact ⟨t, rfl, maxByVersion_mem hm, maxByVersion_le hm,
      renderView_ok_of_max hc hce hm⟩

theorem claim_C10_render_max_active_witness :
    (activeRows storeTwoActive "welcome" "en").length = 2
      ∧ ∃ t, maxByVersion (activeRows storeTwoActive "welcome" "en")
            = some t
          ∧ t ∈ activeRows storeTwoActive "welcome" "en"
          ∧ (∀ u ∈ activeRows storeTwoActive "welcome" "en",
              u.version ≤ t.version)
          ∧ renderView storeTwoActive
              { code := some "welcome", language := none, vars := [] }
              = .ok { code := t.code, subject := t.subject,
                      content := renderTmpl t.content [],
                      version := t.version, language := t.language } :=
  ⟨by decide,
    claim_C10_render_max_active storeTwoActive
      { code := some "welcome", language := none, vars := [] } "welcome"
      rfl (by decide) (by decide)⟩

end TemplateApp
